import Mathlib

/-!
Verification of the Minenet protocol core (`src/server.ts`).

The development shallowly embeds the protocol-handling code of the
repository: the VarInt readers (`Buffer.prototype.readVarInt`,
`getVarIntSize`), the SLP ping/status session, the legacy ping session and
the GameSpy4 query session.  Buffers are embedded as `List Nat` of byte
values; JavaScript numbers produced by the 32-bit bitwise operators are
embedded as their unsigned 32-bit bit pattern (a `Nat` below `2 ^ 32`),
converted to the signed value (`Int`) where the code observes the number.
Stateful socket sessions are embedded as explicit state machines driven by
event lists.
-/

/-- Signed 32-bit value of a bit pattern, as produced by JavaScript's
`ToInt32` conversion at the end of a chain of bitwise operators. -/
def toInt32 (n : Nat) : Int :=
  if n % 2 ^ 32 < 2 ^ 31 then ((n % 2 ^ 32 : Nat) : Int)
  else ((n % 2 ^ 32 : Nat) : Int) - 2 ^ 32

/-- Worker for `Buffer.prototype.readVarInt` (src/server.ts:237-248).  The
JavaScript do-while loop reads `this[pos++]` until a byte without the
continuation bit; the successive reads from `pos` onward are the traversal
of the list.  The end of the list is `this[pos] = undefined`, for which
`undefined & 0x7f = 0` leaves `num` unchanged and `undefined & 0x80 = 0`
exits the loop — so the empty-list case returns `num` as is.  One step is
`num |= (byte & 0x7f) << shift`: the shift count is taken mod 32 and the
result truncated to 32 bits, exactly as the JavaScript operators do. -/
def readVarIntL : List Nat → Nat → Nat → Nat
  | [], num, _ => num
  | byte :: rest, num, shift =>
    let num2 := num ||| (((byte &&& 127) <<< (shift % 32)) % 2 ^ 32)
    if byte &&& 128 = 128 then readVarIntL rest num2 (shift + 7) else num2

/-- Embedding of `Buffer.prototype.readVarInt` (src/server.ts:237-248):
`num = 0`, `shift = 0`, `pos = offset`, then the do-while loop of
`readVarIntL`; the returned JavaScript number is the signed 32-bit value of
the accumulated pattern. -/
def readVarInt (buf : List Nat) (offset : Nat) : Int :=
  toInt32 (readVarIntL (buf.drop offset) 0 0)

/-- Worker for `getVarIntSize` (src/server.ts:200-207).  The loop scans
`buf[offset + size]` for `size = 0, 1, ...` — the traversal of the list
from `offset` on — and breaks at the first byte whose `& 0x80` is not
`0x80`; an out-of-range read gives `undefined & 0x80 = 0` and also breaks.
The function returns `size + 1`, counted here as one per continuation byte
plus a final 1. -/
def getVarIntSizeL : List Nat → Nat
  | [] => 1
  | byte :: rest => if byte &&& 128 = 128 then getVarIntSizeL rest + 1 else 1

/-- Embedding of `getVarIntSize` (src/server.ts:200-207). -/
def getVarIntSize (buf : List Nat) (offset : Nat) : Nat :=
  getVarIntSizeL (buf.drop offset)

/-- Fuelled worker for the VarInt encoder.  The fuel only bounds the
recursion; `encodeVarInt` supplies enough for the loop to run to
completion. -/
def encodeVarIntAux : Nat → Nat → List Nat
  | 0, v => [v &&& 127]
  | fuel + 1, v =>
    if v < 128 then [v]
    else ((v &&& 127) ||| 128) :: encodeVarIntAux fuel (v >>> 7)

/-- Modelled from the spec: `encode(value)` of the VarInt codec (section
4.1), which is not present under src/ (the code frames packets with a raw
single length byte instead).  It repeatedly emits `value & 0x7F` with the
continuation bit set, shifting by 7 bits, until the remaining value is
below 128. -/
def encodeVarInt (v : Nat) : List Nat :=
  encodeVarIntAux v v

/-- Result of the spec-side VarInt decoder: either the `TruncatedInput`
signal or a value together with the number of bytes consumed. -/
inductive VarIntDecode where
  | truncatedInput
  | value (v : Nat) (bytesConsumed : Nat)
deriving DecidableEq

/-- Worker for `decodeVarIntSpec`, accumulating the value and the number of
bytes consumed. -/
def decodeVarIntSpecAux : List Nat → Nat → Nat → VarIntDecode
  | [], _, _ => VarIntDecode.truncatedInput
  | b :: rest, num, count =>
    if b &&& 128 = 128 then
      decodeVarIntSpecAux rest (num + (b &&& 127) * 2 ^ (7 * count)) (count + 1)
    else VarIntDecode.value (num + b * 2 ^ (7 * count)) (count + 1)

/-- Modelled from the spec: `decode(buffer, offset) -> (value,
bytesConsumed)` of the VarInt codec (section 4.1), which "fails with
`TruncatedInput` if the buffer ends before a terminating byte is found". -/
def decodeVarIntSpec (buf : List Nat) (offset : Nat) : VarIntDecode :=
  decodeVarIntSpecAux (buf.drop offset) 0 0

example : readVarInt [172, 2] 0 = 300 := by decide
example : getVarIntSize [172, 2] 0 = 2 := by decide
example : readVarInt [128] 0 = 0 := by decide
example : getVarIntSize [128] 0 = 2 := by decide
example : encodeVarInt 300 = [172, 2] := by decide
example : decodeVarIntSpec [128] 0 = VarIntDecode.truncatedInput := by decide
example : decodeVarIntSpec [172, 2] 0 = VarIntDecode.value 300 2 := by decide

/-- Clamping of one index by `Buffer.slice`: a negative index counts from
the end of the buffer, and indices are clamped to `[0, length]`. -/
def jsSliceIndex (len : Nat) (i : Int) : Nat :=
  if i < 0 then (max (len + i) 0).toNat else min i.toNat len

/-- Embedding of `Buffer.slice(start, end)` as used by the data handlers:
the bytes from the clamped start index (inclusive) to the clamped end
index (exclusive). -/
def jsSlice (buf : List Nat) (start stop : Int) : List Nat :=
  (buf.take (jsSliceIndex buf.length stop)).drop (jsSliceIndex buf.length start)

/-- Handshake payload built in the connect callback of `Server.ping`
(src/server.ts:37-45): packet ID `0x00`, protocol version `0x00`, a single
length byte for the host (`Buffer.from([hostBuf.length])` keeps only the
low 8 bits), the host bytes, the big-endian port and next-state `0x01`.
The host string is embedded as its UTF-8 byte list `hostBuf`. -/
def handshakeOf (hostBuf : List Nat) (port : Nat) : List Nat :=
  [0x00] ++ [0x00] ++ [hostBuf.length % 256] ++ hostBuf
    ++ [((port >>> 8) % 256), port % 256] ++ [0x01]

/-- Framed handshake packet (src/server.ts:46-49): a single leading byte
`Buffer.from([handshake.length])` (low 8 bits only) followed by the
payload. -/
def handshakePacketOf (hostBuf : List Nat) (port : Nat) : List Nat :=
  ((handshakeOf hostBuf port).length % 256) :: handshakeOf hostBuf port

/-- Status-request packet written right after the handshake
(src/server.ts:52): length 1, packet ID `0x00`. -/
def statusRequest : List Nat := [0x01, 0x00]

/-- Result of one firing of the `data` handler of `Server.ping`
(src/server.ts:55-80).  `waitMore` is the fall-through when the decoded
packet ID is not `0x00` (nothing resolved, buffer kept).  `complete` marks
reaching `socket.destroy()` in the `packetId === 0x00` branch, carrying
the new buffer and the extracted JSON byte slice; the code then resolves
`JSON.parse` of the slice in status mode (which itself may throw inside
the try, after the socket is already destroyed) or the elapsed time in
ping mode. -/
inductive SlpDataStep where
  | waitMore (buf : List Nat)
  | complete (buf : List Nat) (json : List Nat)
deriving DecidableEq

/-- Embedding of the body of the `data` handler of `Server.ping`
(src/server.ts:55-80): append the chunk, read the length VarInt, the
packet-ID VarInt and — when the packet ID equals `0x00` — the JSON-length
VarInt, then slice out the JSON bytes and destroy the socket. -/
def slpOnData (received chunk : List Nat) : SlpDataStep :=
  let buf := received ++ chunk
  let _length := readVarInt buf 0
  let offset1 := 0 + getVarIntSize buf 0
  let packetId := readVarInt buf offset1
  let offset2 := offset1 + getVarIntSize buf offset1
  if packetId = 0 then
    let jsonLength := readVarInt buf offset2
    let offset3 := offset2 + getVarIntSize buf offset2
    SlpDataStep.complete buf (jsSlice buf (offset3 : Int) ((offset3 : Int) + jsonLength))
  else SlpDataStep.waitMore buf

/-- Phase of an SLP session: before the connect callback, awaiting
response data, or socket destroyed. -/
inductive SlpPhase where
  | connecting
  | awaiting
  | closed
deriving DecidableEq

/-- Way an SLP session settles: `completed json` marks reaching the
resolve site of the data handler with the extracted JSON slice, `timedOut`
the timeout handler (src/server.ts:82-85), `errored` the error handler
(src/server.ts:87-90). -/
inductive SlpOutcome where
  | completed (json : List Nat)
  | timedOut
  | errored
deriving DecidableEq

/-- State of one `Server.ping` session: its phase, the accumulated
`receivedData` buffer, the list of byte strings written to the socket so
far (in write order), whether the socket is still open, and the settled
outcome if any. -/
structure SlpState where
  phase : SlpPhase
  received : List Nat
  written : List (List Nat)
  socketOpen : Bool
  outcome : Option SlpOutcome
deriving DecidableEq

/-- Initial state of `Server.ping` (src/server.ts:29-34): socket created,
empty receive buffer, nothing written, no outcome. -/
def slpInit : SlpState :=
  { phase := SlpPhase.connecting, received := [], written := [],
    socketOpen := true, outcome := none }

/-- Socket events a `Server.ping` session can observe: the connect
callback, a data chunk, the socket timeout, a socket error. -/
inductive SlpEvent where
  | connected
  | data (chunk : List Nat)
  | timeout
  | socketError

/-- One event step of `Server.ping` (src/server.ts:36-91).  A destroyed
socket emits no further events, so events on a closed socket leave the
state unchanged.  The connect callback (src/server.ts:36-53) writes the
handshake packet and then the status request.  Data chunks are delivered
only on an established connection, i.e. after the connect callback ran.
The timeout and error handlers destroy the socket and reject. -/
def slpStep (hostBuf : List Nat) (port : Nat) (st : SlpState) : SlpEvent → SlpState
  | SlpEvent.connected =>
    if st.socketOpen then
      match st.phase with
      | SlpPhase.connecting =>
        { st with phase := SlpPhase.awaiting,
                  written := st.written
                    ++ [handshakePacketOf hostBuf port, statusRequest] }
      | _ => st
    else st
  | SlpEvent.data chunk =>
    if st.socketOpen then
      match st.phase with
      | SlpPhase.awaiting =>
        match slpOnData st.received chunk with
        | SlpDataStep.waitMore buf => { st with received := buf }
        | SlpDataStep.complete buf json =>
          { st with received := buf, phase := SlpPhase.closed,
                    socketOpen := false,
                    outcome := some (SlpOutcome.completed json) }
      | _ => st
    else st
  | SlpEvent.timeout =>
    if st.socketOpen then
      { st with phase := SlpPhase.closed, socketOpen := false,
                outcome := some SlpOutcome.timedOut }
    else st
  | SlpEvent.socketError =>
    if st.socketOpen then
      { st with phase := SlpPhase.closed, socketOpen := false,
                outcome := some SlpOutcome.errored }
    else st

/-- A whole `Server.ping` session: the initial state driven by a list of
socket events. -/
def slpRun (hostBuf : List Nat) (port : Nat) (es : List SlpEvent) : SlpState :=
  es.foldl (slpStep hostBuf port) slpInit

/-- Socket timeout configured by `Server.ping` (src/server.ts:34). -/
def slpTimeoutMs : Nat := 5000

example :
    (slpRun [97] 25565 [SlpEvent.connected, SlpEvent.data [4, 0, 2, 123, 125]]).outcome
      = some (SlpOutcome.completed [123, 125]) := by decide
example :
    (slpRun [97] 25565 [SlpEvent.connected, SlpEvent.data [4]]).outcome
      = some (SlpOutcome.completed []) := by decide

/-- UTF-16 code units of a byte list in little-endian byte order, as
produced by Node's `"ucs2"` decoding (`buf.toString("ucs2", ...)`): each
consecutive byte pair `b0, b1` is the unit `b0 + 256 * b1`; a trailing
lone byte is dropped. -/
def ucs2LE : List Nat → List Nat
  | b0 :: b1 :: rest => (b0 + 256 * b1) :: ucs2LE rest
  | _ => []

/-- Modelled from the spec: UTF-16 code units with big-endian byte order
(section 4.3 describes the decode step of the legacy parse as "2 bytes per
character, big-endian code units"); used only to compare the spec's
described parse with the code's. -/
def ucs2BE : List Nat → List Nat
  | b0 :: b1 :: rest => (256 * b0 + b1) :: ucs2BE rest
  | _ => []

/-- Splitting of a unit list at every `0` unit, matching JavaScript's
`str.split("\0")`: the separators are removed and empty pieces are kept,
so the result always has one more piece than there are separators. -/
def splitOnZero : List Nat → List (List Nat)
  | [] => [[]]
  | u :: rest =>
    match splitOnZero rest with
    | t :: ts => if u = 0 then [] :: t :: ts else (u :: t) :: ts
    | [] => [[]]

/-- Fields extracted by the legacy-ping data handler; a missing positional
part is JavaScript's `undefined`, embedded as `none`.  Fields hold UTF-16
code-unit lists. -/
structure LegacyResponse where
  protocol : Option (List Nat)
  version : Option (List Nat)
  motd : Option (List Nat)
  onlinePlayers : Option (List Nat)
  maxPlayers : Option (List Nat)
deriving DecidableEq

/-- Embedding of the legacy-ping parse (src/server.ts:172-180):
`data.toString("ucs2", 3)` — skip 3 bytes, decode as little-endian UTF-16
— then split on NUL and pick parts 1 to 5 positionally. -/
def legacyParse (data : List Nat) : LegacyResponse :=
  let parts := splitOnZero (ucs2LE (data.drop 3))
  { protocol := parts.get? 1, version := parts.get? 2, motd := parts.get? 3,
    onlinePlayers := parts.get? 4, maxPlayers := parts.get? 5 }

/-- Modelled from the spec: the legacy parse as the spec sentences state
it — skip 3 leading bytes, interpret the remainder as UCS-2 with
big-endian code units, split on NUL, take the fields positionally
(sections 4.3 and 6). -/
def legacyParseBE (data : List Nat) : LegacyResponse :=
  let parts := splitOnZero (ucs2BE (data.drop 3))
  { protocol := parts.get? 1, version := parts.get? 2, motd := parts.get? 3,
    onlinePlayers := parts.get? 4, maxPlayers := parts.get? 5 }

/-- Little-endian UTF-16 byte encoding of a unit list; inverse of `ucs2LE`
for units below `2 ^ 16`. -/
def ucs2LEEncode (units : List Nat) : List Nat :=
  (units.map (fun u => [u % 256, u / 256])).flatten

/-- NUL-joined unit list: the pieces in order with a `0` unit between
consecutive pieces. -/
def nulJoin : List (List Nat) → List Nat
  | [] => []
  | [p] => p
  | p :: rest => p ++ 0 :: nulJoin rest

/-- Way a legacy-ping session settles (src/server.ts:169-189). -/
inductive LegacyOutcome where
  | resolved (r : LegacyResponse)
  | timedOut
  | errored
deriving DecidableEq

/-- State of one `Server.legacyPing` session. -/
structure LegacyState where
  connectedYet : Bool
  written : List (List Nat)
  socketOpen : Bool
  outcome : Option LegacyOutcome
deriving DecidableEq

/-- Initial state of `Server.legacyPing` (src/server.ts:163-165). -/
def legacyInit : LegacyState :=
  { connectedYet := false, written := [], socketOpen := true, outcome := none }

/-- Socket events a `Server.legacyPing` session can observe. -/
inductive LegacyEvent where
  | connected
  | data (chunk : List Nat)
  | timeout
  | socketError

/-- One event step of `Server.legacyPing` (src/server.ts:166-189): the
connect callback writes the two probe bytes `FE 01`; the first data event
destroys the socket and resolves the parse of that single chunk; timeout
and error destroy the socket and reject.  A destroyed socket emits no
further events. -/
def legacyStep (st : LegacyState) : LegacyEvent → LegacyState
  | LegacyEvent.connected =>
    if st.socketOpen then
      if st.connectedYet then st
      else { st with connectedYet := true, written := st.written ++ [[0xfe, 0x01]] }
    else st
  | LegacyEvent.data chunk =>
    if st.socketOpen then
      if st.connectedYet then
        { st with socketOpen := false,
                  outcome := some (LegacyOutcome.resolved (legacyParse chunk)) }
      else st
    else st
  | LegacyEvent.timeout =>
    if st.socketOpen then
      { st with socketOpen := false, outcome := some LegacyOutcome.timedOut }
    else st
  | LegacyEvent.socketError =>
    if st.socketOpen then
      { st with socketOpen := false, outcome := some LegacyOutcome.errored }
    else st

/-- A whole `Server.legacyPing` session: the initial state driven by a
list of socket events. -/
def legacyRun (es : List LegacyEvent) : LegacyState :=
  es.foldl legacyStep legacyInit

/-- Socket timeout configured by `Server.legacyPing` (src/server.ts:165). -/
def legacyTimeoutMs : Nat := 5000

/-- Embedding of JavaScript's `parseInt` on the ASCII byte string of a
challenge token: the value of the leading run of decimal digits, or `none`
for `NaN` when the string does not start with a digit. -/
def parseIntJS (bytes : List Nat) : Option Nat :=
  let ds := bytes.takeWhile (fun b => 48 ≤ b ∧ b ≤ 57)
  if ds.isEmpty then none
  else some (ds.foldl (fun acc b => acc * 10 + (b - 48)) 0)

/-- Fuelled worker producing the ASCII decimal digits of a number; the
fuel only bounds the recursion and `natToDecimalBytes` supplies enough. -/
def natDecimalAux : Nat → Nat → List Nat
  | 0, n => [48 + n % 10]
  | fuel + 1, n =>
    if n < 10 then [48 + n] else natDecimalAux fuel (n / 10) ++ [48 + n % 10]

/-- ASCII decimal representation of a natural number, as produced by
JavaScript's `Number.prototype.toString`. -/
def natToDecimalBytes (n : Nat) : List Nat :=
  natDecimalAux n n

/-- Bytes of `token.toString()` (src/server.ts:132): the decimal digits
for a parsed number, the three bytes of `"NaN"` when `parseInt` returned
`NaN`. -/
def jsNumToString : Option Nat → List Nat
  | none => [78, 97, 78]
  | some n => natToDecimalBytes n

/-- Phase-1 handshake datagram of `Server.query` (src/server.ts:105-113):
`FE FD 09` followed by the four big-endian session-ID bytes. -/
def queryHandshake (sessionId : Nat) : List Nat :=
  [0xfe, 0xfd, 0x09, (sessionId >>> 24) % 256, (sessionId >>> 16) % 256,
   (sessionId >>> 8) % 256, sessionId % 256]

/-- Phase-2 full-stat request datagram (src/server.ts:122-134): `FE FD 00`,
the four session-ID bytes, the token as an ASCII string, and
`Buffer.alloc(4)` = four zero bytes. -/
def queryStatRequest (sessionId : Nat) (token : Option Nat) : List Nat :=
  [0xfe, 0xfd, 0x00, (sessionId >>> 24) % 256, (sessionId >>> 16) % 256,
   (sessionId >>> 8) % 256, sessionId % 256]
    ++ jsNumToString token ++ [0, 0, 0, 0]

/-- Pairing loop of `parseQueryResponse` (src/server.ts:219-222): consume
the parts two at a time while both the key and the value position exist,
stopping at the first empty key; later assignments to a repeated key would
overwrite earlier ones in the JavaScript object, the list keeps them in
assignment order. -/
def pairUp : List (List Nat) → List (List Nat × List Nat)
  | k :: v :: rest => if k = [] then [] else (k, v) :: pairUp rest
  | _ => []

/-- Embedding of `parseQueryResponse` (src/server.ts:214-224): skip the
5 header bytes, split the payload on NUL and pair up key/value parts.  The
payload is kept at the byte level; a NUL byte never occurs inside a UTF-8
encoded non-NUL character, so the byte-level split matches splitting the
decoded string. -/
def parseQueryResponse (msg : List Nat) : List (List Nat × List Nat) :=
  pairUp (splitOnZero (msg.drop 5))

/-- Way a `Server.query` session settles (src/server.ts:119-152). -/
inductive QueryOutcome where
  | resolved (pairs : List (List Nat × List Nat))
  | timedOut
  | errored
deriving DecidableEq

/-- State of one `Server.query` session: the challenge token once known
(`some (some n)` for a parsed number, `some none` when `parseInt` gave
`NaN`, `none` while the JavaScript variable is still `null`), the
datagrams sent so far, whether the UDP socket is open, whether the 5000 ms
timer is still pending, and the settled outcome if any. -/
structure QueryState where
  token : Option (Option Nat)
  sent : List (List Nat)
  socketOpen : Bool
  timerActive : Bool
  outcome : Option QueryOutcome
deriving DecidableEq

/-- Initial state of `Server.query` (src/server.ts:103-117,143-146): the
handshake datagram is sent and the timer armed before any event fires. -/
def queryInit (sessionId : Nat) : QueryState :=
  { token := none, sent := [queryHandshake sessionId], socketOpen := true,
    timerActive := true, outcome := none }

/-- Events a `Server.query` session can observe: an incoming datagram, the
firing of the 5000 ms timer, a socket error. -/
inductive QueryEvent where
  | message (msg : List Nat)
  | timerFire
  | socketError

/-- One event step of `Server.query` (src/server.ts:119-152).  The message
handler checks only `msg[0]` and whether a token is known: on `0x09` with
no token yet it parses `msg.slice(5, msg.length - 1)` as the token and
sends the phase-2 request; on `0x00` with a token known it closes the
socket, cancels the timer and resolves the parsed stat block.  Everything
else is ignored.  The timer rejects with the timeout error after closing
the socket; a socket error closes the socket, cancels the timer and
rejects.  A closed socket emits no further events, and a fired or
cancelled timer does not fire. -/
def queryStep (sessionId : Nat) (st : QueryState) : QueryEvent → QueryState
  | QueryEvent.message msg =>
    if st.socketOpen then
      if msg.get? 0 = some 0x09 ∧ st.token = none then
        let tok := parseIntJS (jsSlice msg 5 ((msg.length : Int) - 1))
        { st with token := some tok,
                  sent := st.sent ++ [queryStatRequest sessionId tok] }
      else if msg.get? 0 = some 0x00 ∧ st.token ≠ none then
        { st with socketOpen := false, timerActive := false,
                  outcome := some (QueryOutcome.resolved (parseQueryResponse msg)) }
      else st
    else st
  | QueryEvent.timerFire =>
    if st.timerActive then
      { st with socketOpen := false, timerActive := false,
                outcome := some QueryOutcome.timedOut }
    else st
  | QueryEvent.socketError =>
    if st.socketOpen then
      { st with socketOpen := false, timerActive := false,
                outcome := some QueryOutcome.errored }
    else st

/-- A whole `Server.query` session: the initial state driven by a list of
events. -/
def queryRun (sessionId : Nat) (es : List QueryEvent) : QueryState :=
  es.foldl (queryStep sessionId) (queryInit sessionId)

/-- Timer deadline configured by `Server.query` (src/server.ts:143-146). -/
def queryTimeoutMs : Nat := 5000

example :
    (queryRun 1 [QueryEvent.message [9, 0, 0, 0, 1, 53, 55, 0],
                 QueryEvent.message [0, 0, 0, 0, 2, 97, 0, 98, 0, 0]]).outcome
      = some (QueryOutcome.resolved [([97], [98])]) := by decide
example :
    (queryRun 1 [QueryEvent.message [9, 0, 0, 0, 1, 53, 55, 0]]).sent
      = [queryHandshake 1, queryStatRequest 1 (some 57)] := by decide

/-! Helper lemmas. -/

theorem foldl_preserves {σ ε : Type} (step : σ → ε → σ) (I : σ → Prop)
    (h : ∀ s e, I s → I (step s e)) :
    ∀ (es : List ε) (init : σ), I init → I (es.foldl step init)
  | [], _, h0 => h0
  | e :: es, init, h0 => foldl_preserves step I h es (step init e) (h init e h0)

theorem drop_append_single {α : Type} (x : α) :
    ∀ (l : List α) (n : Nat), n ≤ l.length → (l ++ [x]).drop n = l.drop n ++ [x]
  | _, 0, _ => by simp
  | a :: l, n + 1, h => by
    simpa using drop_append_single x l n (by simpa using h)
  | [], n + 1, h => by simp at h

theorem readVarIntL_append_zero :
    ∀ (l : List Nat) (num shift : Nat),
      readVarIntL (l ++ [0]) num shift = readVarIntL l num shift
  | [], num, shift => by simp [readVarIntL]
  | b :: l, num, shift => by
    simp only [List.cons_append, readVarIntL]
    split
    · exact readVarIntL_append_zero l _ _
    · rfl

theorem getVarIntSizeL_append_zero :
    ∀ l : List Nat, getVarIntSizeL (l ++ [0]) = getVarIntSizeL l
  | [] => by simp [getVarIntSizeL]
  | b :: l => by
    simp only [List.cons_append, getVarIntSizeL]
    split
    · have := getVarIntSizeL_append_zero l
      simp only [List.append_eq] at this ⊢
      omega
    · rfl

theorem getVarIntSizeL_le : ∀ l : List Nat, getVarIntSizeL l ≤ l.length + 1
  | [] => Nat.le_refl 1
  | b :: l => by
    simp only [getVarIntSizeL, List.length_cons]
    split
    · exact Nat.add_le_add_right (getVarIntSizeL_le l) 1
    · omega

theorem and_127_eq_mod (v : Nat) : v &&& 127 = v % 128 := by
  have h := Nat.and_pow_two_sub_one_eq_mod v 7
  norm_num at h
  exact h

theorem and_128_of_lt {v : Nat} (h : v < 128) : v &&& 128 = 0 := by
  have h7 : v.testBit 7 = false := Nat.testBit_lt_two_pow (by norm_num [h])
  have := Nat.and_two_pow v 7
  norm_num [h7] at this
  exact this

theorem lor_disjoint {a : Nat} (b s : Nat) (h : a < 2 ^ s) :
    a ||| b * 2 ^ s = a + b * 2 ^ s :=
  calc a ||| b * 2 ^ s = 2 ^ s * b ||| a := by rw [Nat.or_comm, Nat.mul_comm]
    _ = 2 ^ s * b + a := (Nat.mul_add_lt_is_or h b).symm
    _ = a + b * 2 ^ s := by ring

theorem toInt32_of_lt {n : Nat} (h : n < 2 ^ 31) : toInt32 n = (n : Int) := by
  unfold toInt32
  rw [Nat.mod_eq_of_lt (lt_trans h (by norm_num))]
  rw [if_pos h]

theorem readVarIntL_encode (v : Nat) :
    ∀ fuel num shift, v ≤ fuel → shift < 32 → v * 2 ^ shift < 2 ^ 31 → num < 2 ^ shift →
      readVarIntL (encodeVarIntAux fuel v) num shift = num + v * 2 ^ shift ∧
      getVarIntSizeL (encodeVarIntAux fuel v) = (encodeVarIntAux fuel v).length := by
  induction v using Nat.strong_induction_on with
  | _ v ih =>
    intro fuel num shift hfuel hs hv hnum
    by_cases hv128 : v < 128
    · have henc : encodeVarIntAux fuel v = [v] := by
        cases fuel with
        | zero =>
          have hv0 : v = 0 := by omega
          subst hv0
          simp [encodeVarIntAux]
        | succ f => simp [encodeVarIntAux, hv128]
      rw [henc]
      have hcont : ¬ (v &&& 128 = 128) := by rw [and_128_of_lt hv128]; omega
      constructor
      · simp only [readVarIntL, if_neg hcont]
        rw [and_127_eq_mod, Nat.mod_eq_of_lt hv128, Nat.mod_eq_of_lt hs,
            Nat.shiftLeft_eq, Nat.mod_eq_of_lt (lt_trans hv (by norm_num))]
        exact lor_disjoint v shift hnum
      · simp [getVarIntSizeL, if_neg hcont]
    · obtain ⟨f, rfl⟩ : ∃ f, fuel = f + 1 := ⟨fuel - 1, by omega⟩
      have henc : encodeVarIntAux (f + 1) v
          = ((v &&& 127) ||| 128) :: encodeVarIntAux f (v >>> 7) := by
        simp [encodeVarIntAux, hv128]
      have hhead128 : ((v &&& 127) ||| 128) &&& 128 = 128 := by
        rw [Nat.and_distrib_right, Nat.and_assoc,
            (by decide : (127 : Nat) &&& 128 = 0),
            (by decide : (128 : Nat) &&& 128 = 128), Nat.and_zero, Nat.zero_or]
      have hhead127 : ((v &&& 127) ||| 128) &&& 127 = v % 128 := by
        rw [Nat.and_distrib_right, Nat.and_assoc,
            (by decide : (127 : Nat) &&& 127 = 127),
            (by decide : (128 : Nat) &&& 127 = 0), Nat.or_zero, and_127_eq_mod]
      have hw : v >>> 7 = v / 128 := by
        rw [Nat.shiftRight_eq_div_pow]
      have hwlt : v / 128 < v := Nat.div_lt_self (by omega) (by norm_num)
      have h128le : (128 : Nat) ≤ v := by omega
      have hpow7 : (2 : Nat) ^ (shift + 7) = 2 ^ shift * 128 := by
        rw [pow_add]; norm_num
      have hstep : 2 ^ (shift + 7) ≤ v * 2 ^ shift := by
        rw [hpow7]
        calc 2 ^ shift * 128 = 128 * 2 ^ shift := by ring
          _ ≤ v * 2 ^ shift := Nat.mul_le_mul_right _ h128le
      have hs7 : shift + 7 < 32 := by
        have h31 : 2 ^ (shift + 7) < 2 ^ 31 := lt_of_le_of_lt hstep hv
        have := (Nat.pow_lt_pow_iff_right (a := 2) (by norm_num)).mp h31
        omega
      have hv7 : (v / 128) * 2 ^ (shift + 7) < 2 ^ 31 := by
        apply lt_of_le_of_lt _ hv
        rw [hpow7]
        calc v / 128 * (2 ^ shift * 128) = v / 128 * 128 * 2 ^ shift := by ring
          _ ≤ v * 2 ^ shift := Nat.mul_le_mul_right _ (Nat.div_mul_le_self v 128)
      have hmod127 : (v % 128) * 2 ^ shift < 2 ^ 32 := by
        apply lt_trans _ (by norm_num : (2 : Nat) ^ 31 < 2 ^ 32)
        exact lt_of_le_of_lt (Nat.mul_le_mul_right _ (Nat.mod_le v 128)) hv
      have hnum2 : num + (v % 128) * 2 ^ shift < 2 ^ (shift + 7) := by
        have hm : v % 128 < 128 := Nat.mod_lt v (by norm_num)
        have : (v % 128) * 2 ^ shift ≤ 127 * 2 ^ shift :=
          Nat.mul_le_mul_right _ (by omega)
        rw [hpow7]
        have hP : (0 : Nat) < 2 ^ shift := Nat.pos_pow_of_pos shift (by norm_num)
        nlinarith
      have hih := ih (v / 128) hwlt f (num + (v % 128) * 2 ^ shift) (shift + 7)
        (by omega) hs7 hv7 hnum2
      have hsplit : v * 2 ^ shift = (v % 128) * 2 ^ shift + (v / 128) * 2 ^ (shift + 7) := by
        rw [hpow7]
        conv_lhs => rw [← Nat.mod_add_div v 128]
        ring
      rw [henc]
      constructor
      · simp only [readVarIntL, if_pos hhead128]
        rw [hhead127, Nat.mod_eq_of_lt hs, Nat.shiftLeft_eq,
            Nat.mod_eq_of_lt hmod127, lor_disjoint _ _ hnum, hw, hih.1]
        omega
      · simp only [getVarIntSizeL, if_pos hhead128, List.length_cons]
        rw [hw, hih.2]

/-! Claim theorems for the VarInt codec. -/

/-- C5: VarInt round-trip — for every `v` in `[0, 2^31 - 1]`, decoding the
VarInt encoding of `v` at offset 0 yields `v` and consumes exactly the
length of the encoding — together with the boundary encodings
`encode 0 = [0x00]`, `encode 127 = [0x7F]`, `encode 128 = [0x80, 0x01]`
and `encode 300 = [0xAC, 0x02]`. -/
theorem varint_roundtrip_boundary :
    (∀ v : Nat, v < 2 ^ 31 →
        readVarInt (encodeVarInt v) 0 = (v : Int) ∧
        getVarIntSize (encodeVarInt v) 0 = (encodeVarInt v).length) ∧
    encodeVarInt 0 = [0x00] ∧ encodeVarInt 127 = [0x7f] ∧
    encodeVarInt 128 = [0x80, 0x01] ∧ encodeVarInt 300 = [0xac, 0x02] := by
  refine ⟨?_, by decide, by decide, by decide, by decide⟩
  intro v hv
  have h := readVarIntL_encode v v 0 0 (Nat.le_refl v) (by norm_num)
    (by simpa using hv) (by norm_num)
  constructor
  · unfold readVarInt encodeVarInt
    rw [List.drop_zero, h.1]
    have : 0 + v * 2 ^ 0 = v := by norm_num
    rw [this]
    exact toInt32_of_lt hv
  · unfold getVarIntSize encodeVarInt
    rw [List.drop_zero]
    exact h.2

/-- Witness for `varint_roundtrip_boundary` at `v = 300`. -/
theorem varint_roundtrip_boundary_witness :
    readVarInt (encodeVarInt 300) 0 = (300 : Int) ∧
    getVarIntSize (encodeVarInt 300) 0 = (encodeVarInt 300).length :=
  varint_roundtrip_boundary.1 300 (by norm_num)

/-- C10: the VarInt readers are total.  Appending an extra `0x00` byte —
a byte without the continuation bit — never changes the result of either
reader: an out-of-range read (`this[pos] = undefined`) behaves exactly
like such a byte, so both functions terminate and return the value
accumulated up to the point where the scan left the buffer.  Moreover
`getVarIntSize` counts at most `(buffer length - offset) + 1` positions. -/
theorem varint_readers_total :
    ∀ (buf : List Nat) (offset : Nat),
      readVarInt buf offset = readVarInt (buf ++ [0]) offset ∧
      getVarIntSize buf offset = getVarIntSize (buf ++ [0]) offset ∧
      getVarIntSize buf offset ≤ (buf.length - offset) + 1 := by
  intro buf offset
  have hbound : getVarIntSize buf offset ≤ (buf.length - offset) + 1 := by
    unfold getVarIntSize
    have h := getVarIntSizeL_le (buf.drop offset)
    simpa [List.length_drop] using h
  by_cases h : offset ≤ buf.length
  · refine ⟨?_, ?_, hbound⟩
    · unfold readVarInt
      rw [drop_append_single 0 buf offset h, readVarIntL_append_zero]
    · unfold getVarIntSize
      rw [drop_append_single 0 buf offset h, getVarIntSizeL_append_zero]
  · have h1 : buf.drop offset = [] := List.drop_eq_nil_of_le (by omega)
    have h2 : (buf ++ [0]).drop offset = [] := by
      apply List.drop_eq_nil_of_le
      simp only [List.length_append, List.length_cons, List.length_nil]
      omega
    refine ⟨?_, ?_, hbound⟩
    · unfold readVarInt
      rw [h1, h2]
    · unfold getVarIntSize
      rw [h1, h2]

/-- C2 (evaluation at the failing input): on the truncated buffer `[0x80]`
— a continuation byte with no terminator — the spec-side decoder reports
`TruncatedInput`, but the code's `readVarInt` does not fail: it returns
the accumulated value `0` (the out-of-range read terminates the loop), and
`getVarIntSize` counts 2 positions.  On a terminated VarInt both agree,
shown here at `[0xAC, 0x02]`. -/
theorem readVarInt_truncated_no_error :
    decodeVarIntSpec [0x80] 0 = VarIntDecode.truncatedInput ∧
    readVarInt [0x80] 0 = 0 ∧ getVarIntSize [0x80] 0 = 2 ∧
    decodeVarIntSpec [0xac, 0x02] 0 = VarIntDecode.value 300 2 ∧
    readVarInt [0xac, 0x02] 0 = 300 ∧ getVarIntSize [0xac, 0x02] 0 = 2 := by
  decide

/-- C1 (evaluation at the failing input): the framed status response
`04 00 02 7B 7D` (length 4, packet ID 0, JSON length 2, JSON bytes
`7B 7D`) delivered in a single chunk completes with the JSON bytes
`7B 7D`; delivered one byte at a time, the very first one-byte chunk
`[0x04]` already drives the data handler into the `packetId === 0x00`
branch — the out-of-range reads behind the length byte decode packet ID 0
and JSON length 0 — so `socket.destroy()` runs with an empty JSON slice,
the socket is closed, the remaining chunks are never delivered, and the
decoded text differs from the single-chunk delivery.  The session does not
keep waiting for more data as the catch-block comment intends. -/
theorem slp_reassembly_bug :
    (slpRun [97] 25565 [SlpEvent.connected,
        SlpEvent.data [4, 0, 2, 123, 125]]).outcome
      = some (SlpOutcome.completed [123, 125]) ∧
    (slpRun [97] 25565 [SlpEvent.connected, SlpEvent.data [4],
        SlpEvent.data [0], SlpEvent.data [2], SlpEvent.data [123],
        SlpEvent.data [125]]).outcome
      = some (SlpOutcome.completed []) ∧
    (slpRun [97] 25565 [SlpEvent.connected, SlpEvent.data [4]]).socketOpen = false ∧
    slpOnData [] [4] = SlpDataStep.complete [4] [] := by
  decide

set_option maxRecDepth 4096 in
/-- C6 counterexample: for a 122-byte host the handshake payload is 128
bytes long, so its single-byte length prefix `0x80` is not the VarInt
encoding `80 01` of 128 — the framed packet differs from a VarInt-framed
one. -/
theorem slp_frame_prefix_not_varint :
    handshakePacketOf (List.replicate 122 97) 25565
      ≠ encodeVarInt (handshakeOf (List.replicate 122 97) 25565).length
          ++ handshakeOf (List.replicate 122 97) 25565 := by
  decide

theorem encodeVarInt_small {n : Nat} (h : n < 128) : encodeVarInt n = [n] := by
  unfold encodeVarInt
  cases n with
  | zero => decide
  | succ m => simp [encodeVarIntAux, h]

/-- C6 amended: whenever the host's UTF-8 byte length is at most 121 (so
the payload length `hostLen + 6` fits in 7 bits), the handshake frame's
leading length byte is the VarInt encoding of the payload's byte length —
the payload being packet ID plus handshake fields, not the outer frame —
and the embedded host length byte is the VarInt encoding of the host's
UTF-8 byte length. -/
theorem slp_frame_prefix_varint_short :
    ∀ (hostBuf : List Nat) (port : Nat), hostBuf.length ≤ 121 →
      handshakePacketOf hostBuf port
        = encodeVarInt (handshakeOf hostBuf port).length ++ handshakeOf hostBuf port ∧
      handshakeOf hostBuf port
        = [0x00, 0x00] ++ encodeVarInt hostBuf.length ++ hostBuf
            ++ [(port >>> 8) % 256, port % 256, 0x01] := by
  intro hostBuf port h
  have hlen : (handshakeOf hostBuf port).length = hostBuf.length + 6 := by
    simp [handshakeOf]
    try omega
  constructor
  · rw [encodeVarInt_small (by omega), hlen]
    unfold handshakePacketOf
    rw [hlen, Nat.mod_eq_of_lt (by omega)]
    rfl
  · rw [encodeVarInt_small (by omega)]
    unfold handshakeOf
    rw [Nat.mod_eq_of_lt (by omega)]
    simp

/-- Witness for `slp_frame_prefix_varint_short` at host `[97]`, port
25565. -/
theorem slp_frame_prefix_varint_short_witness :
    handshakePacketOf [97] 25565
      = encodeVarInt (handshakeOf [97] 25565).length ++ handshakeOf [97] 25565 ∧
    handshakeOf [97] 25565
      = [0x00, 0x00] ++ encodeVarInt 1 ++ [97]
          ++ [(25565 >>> 8) % 256, 25565 % 256, 0x01] :=
  slp_frame_prefix_varint_short [97] 25565 (by decide)

/-- C9: in every reachable state of an SLP session, either nothing has
been written and nothing received yet, or the write log is exactly the
handshake packet followed by the status-request packet.  So the bytes
written before any read are the full handshake packet immediately followed
by `01 00`, with no interleaving, and no data has been received before
both writes were issued. -/
theorem slp_writes_before_any_read :
    ∀ (hostBuf : List Nat) (port : Nat) (es : List SlpEvent),
      ((slpRun hostBuf port es).written = [] ∧ (slpRun hostBuf port es).received = []) ∨
      (slpRun hostBuf port es).written
        = [handshakePacketOf hostBuf port, statusRequest] := by
  intro hostBuf port es
  have h := foldl_preserves (slpStep hostBuf port)
    (fun st => (st.written = [] ∧ st.received = [] ∧ st.phase ≠ SlpPhase.awaiting) ∨
      (st.written = [handshakePacketOf hostBuf port, statusRequest]
        ∧ st.phase ≠ SlpPhase.connecting))
    ?step es slpInit (Or.inl (by simp [slpInit]))
  · rcases h with ⟨h1, h2, _⟩ | ⟨h1, _⟩
    · exact Or.inl ⟨h1, h2⟩
    · exact Or.inr h1
  · intro s e hI
    cases e with
    | connected =>
      by_cases hso : s.socketOpen
      · rw [slpStep, if_pos hso]
        cases hph : s.phase with
        | connecting =>
          rcases hI with ⟨h1, h2, _⟩ | ⟨_, h3⟩
          · exact Or.inr ⟨by simp [h1], by simp⟩
          · exact absurd hph h3
        | awaiting => exact hI
        | closed => exact hI
      · rw [slpStep, if_neg hso]
        exact hI
    | data chunk =>
      by_cases hso : s.socketOpen
      · rw [slpStep, if_pos hso]
        cases hph : s.phase with
        | connecting => exact hI
        | awaiting =>
          rcases hI with ⟨_, _, h3⟩ | ⟨h1, _⟩
          · exact absurd hph h3
          · cases slpOnData s.received chunk with
            | waitMore buf => exact Or.inr ⟨by simp [h1], by simp⟩
            | complete buf json => exact Or.inr ⟨by simp [h1], by simp⟩
        | closed => exact hI
      · rw [slpStep, if_neg hso]
        exact hI
    | timeout =>
      by_cases hso : s.socketOpen
      · rw [slpStep, if_pos hso]
        rcases hI with ⟨h1, h2, _⟩ | ⟨h1, _⟩
        · exact Or.inl ⟨by simp [h1], by simp [h2], by simp⟩
        · exact Or.inr ⟨by simp [h1], by simp⟩
      · rw [slpStep, if_neg hso]
        exact hI
    | socketError =>
      by_cases hso : s.socketOpen
      · rw [slpStep, if_pos hso]
        rcases hI with ⟨h1, h2, _⟩ | ⟨h1, _⟩
        · exact Or.inl ⟨by simp [h1], by simp [h2], by simp⟩
        · exact Or.inr ⟨by simp [h1], by simp⟩
      · rw [slpStep, if_neg hso]
        exact hI

/-- C7: all three session types configure a 5000 ms deadline, and against
a server that never replies (no data or message events) the timeout firing
settles the session with the timeout outcome and a closed socket. -/
theorem sessions_timeout_at_deadline :
    slpTimeoutMs = 5000 ∧ legacyTimeoutMs = 5000 ∧ queryTimeoutMs = 5000 ∧
    (∀ (hostBuf : List Nat) (port : Nat),
      (slpRun hostBuf port [SlpEvent.connected, SlpEvent.timeout]).outcome
          = some SlpOutcome.timedOut ∧
      (slpRun hostBuf port [SlpEvent.connected, SlpEvent.timeout]).socketOpen
          = false) ∧
    ((legacyRun [LegacyEvent.connected, LegacyEvent.timeout]).outcome
        = some LegacyOutcome.timedOut ∧
      (legacyRun [LegacyEvent.connected, LegacyEvent.timeout]).socketOpen = false) ∧
    (∀ sessionId : Nat,
      (queryRun sessionId [QueryEvent.timerFire]).outcome
          = some QueryOutcome.timedOut ∧
      (queryRun sessionId [QueryEvent.timerFire]).socketOpen = false) := by
  refine ⟨rfl, rfl, rfl, ?_, by decide, ?_⟩
  · intro hostBuf port
    simp [slpRun, slpStep, slpInit]
  · intro sessionId
    simp [queryRun, queryStep, queryInit]

/-- C8: whenever a session has settled (its outcome is present), its
socket has already been closed, and for the query session the pending
timer has also been cancelled or spent — no handle remains held after the
session settles, on success, protocol-completion, error and timeout paths
alike. -/
theorem sessions_release_resources :
    (∀ (hostBuf : List Nat) (port : Nat) (es : List SlpEvent),
        (slpRun hostBuf port es).outcome ≠ none →
        (slpRun hostBuf port es).socketOpen = false) ∧
    (∀ es : List LegacyEvent,
        (legacyRun es).outcome ≠ none → (legacyRun es).socketOpen = false) ∧
    (∀ (sessionId : Nat) (es : List QueryEvent),
        (queryRun sessionId es).outcome ≠ none →
        (queryRun sessionId es).socketOpen = false ∧
          (queryRun sessionId es).timerActive = false) := by
  refine ⟨?_, ?_, ?_⟩
  · intro hostBuf port es hne
    have hstep : ∀ s e, (s.outcome = none ∨ s.socketOpen = false) →
        ((slpStep hostBuf port s e).outcome = none ∨
          (slpStep hostBuf port s e).socketOpen = false) := by
      intro s e hI
      have hout : s.socketOpen = true → s.outcome = none := by
        intro hso
        rcases hI with h | h
        · exact h
        · rw [hso] at h; cases h
      cases e with
      | connected =>
        by_cases hso : s.socketOpen
        · rw [slpStep, if_pos hso]
          cases s.phase
          · exact Or.inl (hout hso)
          · exact Or.inl (hout hso)
          · exact Or.inl (hout hso)
        · rw [slpStep, if_neg hso]
          exact hI
      | data chunk =>
        by_cases hso : s.socketOpen
        · rw [slpStep, if_pos hso]
          cases s.phase
          · exact Or.inl (hout hso)
          · cases slpOnData s.received chunk with
            | waitMore buf => exact Or.inl (hout hso)
            | complete buf json => exact Or.inr rfl
          · exact Or.inl (hout hso)
        · rw [slpStep, if_neg hso]
          exact hI
      | timeout =>
        by_cases hso : s.socketOpen
        · rw [slpStep, if_pos hso]
          exact Or.inr rfl
        · rw [slpStep, if_neg hso]
          exact hI
      | socketError =>
        by_cases hso : s.socketOpen
        · rw [slpStep, if_pos hso]
          exact Or.inr rfl
        · rw [slpStep, if_neg hso]
          exact hI
    rcases foldl_preserves (slpStep hostBuf port) _ hstep es slpInit
      (Or.inl rfl) with h | h
    · exact absurd h hne
    · exact h
  · intro es hne
    have hstep : ∀ s e, (s.outcome = none ∨ s.socketOpen = false) →
        ((legacyStep s e).outcome = none ∨ (legacyStep s e).socketOpen = false) := by
      intro s e hI
      have hout : s.socketOpen = true → s.outcome = none := by
        intro hso
        rcases hI with h | h
        · exact h
        · rw [hso] at h; cases h
      cases e with
      | connected =>
        by_cases hso : s.socketOpen
        · rw [legacyStep, if_pos hso]
          cases s.connectedYet
          · exact Or.inl (hout hso)
          · exact Or.inl (hout hso)
        · rw [legacyStep, if_neg hso]
          exact hI
      | data chunk =>
        by_cases hso : s.socketOpen
        · rw [legacyStep, if_pos hso]
          cases s.connectedYet
          · exact Or.inl (hout hso)
          · exact Or.inr rfl
        · rw [legacyStep, if_neg hso]
          exact hI
      | timeout =>
        by_cases hso : s.socketOpen
        · rw [legacyStep, if_pos hso]
          exact Or.inr rfl
        · rw [legacyStep, if_neg hso]
          exact hI
      | socketError =>
        by_cases hso : s.socketOpen
        · rw [legacyStep, if_pos hso]
          exact Or.inr rfl
        · rw [legacyStep, if_neg hso]
          exact hI
    rcases foldl_preserves legacyStep _ hstep es legacyInit (Or.inl rfl) with h | h
    · exact absurd h hne
    · exact h
  · intro sessionId es hne
    have hstep : ∀ s e, (s.outcome = none ∨
          (s.socketOpen = false ∧ s.timerActive = false)) →
        ((queryStep sessionId s e).outcome = none ∨
          ((queryStep sessionId s e).socketOpen = false ∧
            (queryStep sessionId s e).timerActive = false)) := by
      intro s e hI
      cases e with
      | message msg =>
        by_cases hso : s.socketOpen
        · have hout : s.outcome = none := by
            rcases hI with h | ⟨h, _⟩
            · exact h
            · rw [hso] at h; cases h
          rw [queryStep, if_pos hso]
          split
          · exact Or.inl hout
          · split
            · exact Or.inr ⟨rfl, rfl⟩
            · exact Or.inl hout
        · rw [queryStep, if_neg hso]
          exact hI
      | timerFire =>
        by_cases hta : s.timerActive
        · rw [queryStep, if_pos hta]
          exact Or.inr ⟨rfl, rfl⟩
        · rw [queryStep, if_neg hta]
          exact hI
      | socketError =>
        by_cases hso : s.socketOpen
        · rw [queryStep, if_pos hso]
          exact Or.inr ⟨rfl, rfl⟩
        · rw [queryStep, if_neg hso]
          exact hI
    rcases foldl_preserves (queryStep sessionId) _ hstep es (queryInit sessionId)
      (Or.inl rfl) with h | h
    · exact absurd h hne
    · exact h

/-- C3 counterexample: a query session with session ID 1 receives a valid
phase-1 token reply, then a stats datagram (first byte `0x00`) echoing the
wrong session ID 2 in bytes 1-4.  The claim says the datagram is ignored
and the session times out; instead the handler — which never inspects the
echoed session ID — resolves the exchange with the parsed stat block. -/
theorem query_wrong_sid_resolves :
    (queryRun 1 [QueryEvent.message [9, 0, 0, 0, 1, 53, 55, 0],
                 QueryEvent.message [0, 0, 0, 0, 2, 97, 0, 98, 0, 0]]).outcome
      = some (QueryOutcome.resolved [([97], [98])]) ∧
    jsSlice [0, 0, 0, 0, 2, 97, 0, 98, 0, 0] 1 5 ≠ jsSlice (queryHandshake 1) 3 7 := by
  decide

/-- C3 amended: a phase-2 stats datagram — first byte `0x00` — received
while a token is known resolves the exchange with the parsed stat block
regardless of the session ID it carries (the handler only inspects the
first byte and whether a token is known); a stats datagram arriving before
any token is known is ignored, and if nothing else arrives such a session
times out when the timer fires. -/
theorem query_stats_checks_only_first_byte :
    ∀ (sessionId : Nat) (st : QueryState) (msg : List Nat),
      st.socketOpen = true → msg.get? 0 = some 0x00 →
      (st.token ≠ none →
        queryStep sessionId st (QueryEvent.message msg)
          = { st with socketOpen := false, timerActive := false,
                      outcome := some (QueryOutcome.resolved (parseQueryResponse msg)) }) ∧
      (st.token = none →
        queryStep sessionId st (QueryEvent.message msg) = st ∧
        (st.timerActive = true →
          queryStep sessionId st QueryEvent.timerFire
            = { st with socketOpen := false, timerActive := false,
                        outcome := some QueryOutcome.timedOut })) := by
  intro sessionId st msg hso hmsg
  have hne9 : ¬ (msg.get? 0 = some 0x09 ∧ st.token = none) := by
    intro hc
    have h1 := hc.1
    rw [hmsg] at h1
    simp at h1
  constructor
  · intro htok
    rw [queryStep, if_pos hso]
    rw [if_neg hne9, if_pos ⟨hmsg, htok⟩]
  · intro htok
    constructor
    · rw [queryStep, if_pos hso]
      rw [if_neg hne9, if_neg (by simp [htok])]
    · intro hta
      rw [queryStep, if_pos hta]

/-- Witness for `query_stats_checks_only_first_byte` on a concrete state
with a known token and a stats datagram echoing a mismatched session ID. -/
theorem query_stats_checks_only_first_byte_witness :
    queryStep 1 ⟨some (some 57), [], true, true, none⟩
        (QueryEvent.message [0, 0, 0, 0, 2, 97, 0, 98, 0, 0])
      = ⟨some (some 57), [], false, false,
          some (QueryOutcome.resolved [([97], [98])])⟩ := by
  have h := (query_stats_checks_only_first_byte 1
    ⟨some (some 57), [], true, true, none⟩ [0, 0, 0, 0, 2, 97, 0, 98, 0, 0]
    rfl (by decide)).1 (by decide)
  rw [h]
  decide

/-- Witness for `sessions_release_resources` on concrete settled runs of
each session type. -/
theorem sessions_release_resources_witness :
    (slpRun [97] 25565 [SlpEvent.connected, SlpEvent.timeout]).socketOpen = false ∧
    (legacyRun [LegacyEvent.timeout]).socketOpen = false ∧
    ((queryRun 1 [QueryEvent.timerFire]).socketOpen = false ∧
      (queryRun 1 [QueryEvent.timerFire]).timerActive = false) :=
  ⟨sessions_release_resources.1 [97] 25565 _ (by decide),
   sessions_release_resources.2.1 _ (by decide),
   sessions_release_resources.2.2 1 _ (by decide)⟩


/-- C4 counterexample: for the response bytes `FF 00 03` followed by the
big-endian UCS-2 units of `"1\x00" ++ "2"` (`00 31 00 00 00 32`), the
code's parse — Node's `"ucs2"`, i.e. little-endian code units — produces
different fields than the big-endian parse the claim describes. -/
theorem legacy_parse_not_big_endian :
    legacyParse [255, 0, 3, 0, 49, 0, 0, 0, 50]
      ≠ legacyParseBE [255, 0, 3, 0, 49, 0, 0, 0, 50] := by
  decide

theorem ucs2LE_encode :
    ∀ units : List Nat, (∀ u ∈ units, u < 65536) →
      ucs2LE (ucs2LEEncode units) = units
  | [], _ => rfl
  | u :: rest, h => by
    have hrest := ucs2LE_encode rest (fun x hx => h x (List.mem_cons_of_mem u hx))
    have hu : u % 256 + 256 * (u / 256) = u := Nat.mod_add_div u 256
    simp only [ucs2LEEncode, List.map_cons, List.flatten_cons, List.cons_append,
      List.nil_append, ucs2LE]
    rw [hu]
    exact congrArg (u :: ·) hrest

theorem splitOnZero_ne_nil : ∀ l : List Nat, splitOnZero l ≠ []
  | [] => by simp [splitOnZero]
  | u :: rest => by
    simp only [splitOnZero]
    split
    · split <;> simp
    · simp

theorem splitOnZero_cons (u : Nat) (rest : List Nat) :
    splitOnZero (u :: rest)
      = if u = 0 then [] :: splitOnZero rest
        else (u :: (splitOnZero rest).headI) :: (splitOnZero rest).tail := by
  simp only [splitOnZero]
  cases h : splitOnZero rest with
  | nil => exact absurd h (splitOnZero_ne_nil rest)
  | cons t ts => rfl

theorem splitOnZero_no_zero :
    ∀ p : List Nat, (∀ u ∈ p, u ≠ 0) → splitOnZero p = [p]
  | [], _ => rfl
  | u :: p, h => by
    have hp := splitOnZero_no_zero p (fun x hx => h x (List.mem_cons_of_mem u hx))
    have hu : u ≠ 0 := h u (List.mem_cons_self u p)
    rw [splitOnZero_cons, hp, if_neg hu]
    rfl

theorem splitOnZero_sep :
    ∀ (p rest : List Nat), (∀ u ∈ p, u ≠ 0) →
      splitOnZero (p ++ 0 :: rest) = p :: splitOnZero rest
  | [], rest, _ => by
    rw [List.nil_append, splitOnZero_cons, if_pos rfl]
  | u :: p, rest, h => by
    have hp := splitOnZero_sep p rest (fun x hx => h x (List.mem_cons_of_mem u hx))
    have hu : u ≠ 0 := h u (List.mem_cons_self u p)
    rw [List.cons_append, splitOnZero_cons, hp, if_neg hu]
    rfl

theorem splitOnZero_nulJoin :
    ∀ parts : List (List Nat), parts ≠ [] →
      (∀ p ∈ parts, ∀ u ∈ p, u ≠ 0) →
      splitOnZero (nulJoin parts) = parts
  | [], h, _ => absurd rfl h
  | [p], _, h => by
    simp only [nulJoin]
    exact splitOnZero_no_zero p (h p (List.mem_singleton_self p))
  | p :: q :: rest, _, h => by
    have hq := splitOnZero_nulJoin (q :: rest) (by simp)
      (fun x hx => h x (List.mem_cons_of_mem p hx))
    simp only [nulJoin]
    rw [splitOnZero_sep p _ (h p (List.mem_cons_self p (q :: rest))), hq]

theorem nulJoin_mem_bound (bound : Nat) (hbound : 0 < bound) :
    ∀ parts : List (List Nat), (∀ p ∈ parts, ∀ u ∈ p, u < bound) →
      ∀ u ∈ nulJoin parts, u < bound
  | [], _, u, hu => by simp [nulJoin] at hu
  | [p], h, u, hu => h p (List.mem_singleton_self p) u (by simpa [nulJoin] using hu)
  | p :: q :: rest, h, u, hu => by
    have hih := nulJoin_mem_bound bound hbound (q :: rest)
      (fun x hx => h x (List.mem_cons_of_mem p hx))
    simp only [nulJoin, List.mem_append, List.mem_cons] at hu
    rcases hu with hu | hu | hu
    · exact h p (List.mem_cons_self p (q :: rest)) u hu
    · omega
    · exact hih u hu

/-- C4 amended: the legacy-ping parse skips exactly 3 leading bytes
(marker plus 2-byte length), interprets the remaining bytes as UCS-2 with
little-endian code units — Node's `"ucs2"` decoding, not the big-endian
units the claim describes — splits the resulting string on NUL, and
returns the fields positionally as [literal-tag, protocol, version, motd,
online, max]: for any NUL-joined sequence of six NUL-free fields encoded
little-endian after a 3-byte header, the parse returns fields 1 to 5. -/
theorem legacy_parse_little_endian_fields :
    ∀ (a b : Nat) (f0 f1 f2 f3 f4 f5 : List Nat),
      (∀ part ∈ [f0, f1, f2, f3, f4, f5], ∀ u ∈ part, 0 < u ∧ u < 65536) →
      legacyParse ([255, a, b] ++ ucs2LEEncode (nulJoin [f0, f1, f2, f3, f4, f5]))
        = { protocol := some f1, version := some f2, motd := some f3,
            onlinePlayers := some f4, maxPlayers := some f5 } := by
  intro a b f0 f1 f2 f3 f4 f5 h
  have hbound : ∀ u ∈ nulJoin [f0, f1, f2, f3, f4, f5], u < 65536 := by
    apply nulJoin_mem_bound 65536 (by norm_num)
    intro p hp u hu
    exact (h p hp u hu).2
  have hnz : ∀ p ∈ [f0, f1, f2, f3, f4, f5], ∀ u ∈ p, u ≠ 0 := by
    intro p hp u hu
    exact (h p hp u hu).1.ne'
  unfold legacyParse
  rw [List.drop_left' (by rfl)]
  rw [ucs2LE_encode _ hbound]
  rw [splitOnZero_nulJoin _ (by simp) hnz]
  rfl

/-- Witness for `legacy_parse_little_endian_fields` on a concrete
response. -/
theorem legacy_parse_little_endian_fields_witness :
    legacyParse ([255, 0, 9]
        ++ ucs2LEEncode (nulJoin [[167, 49], [49], [49, 46, 54], [65], [48], [50]]))
      = { protocol := some [49], version := some [49, 46, 54], motd := some [65],
          onlinePlayers := some [48], maxPlayers := some [50] } :=
  legacy_parse_little_endian_fields 0 9 [167, 49] [49] [49, 46, 54] [65] [48] [50]
    (by decide)
